import Mathlib

/-!
Verification of the `byre` torrent planner core.

A shallow embedding, in Lean 4, of the core decision logic of the `byre`
repository: the scorer (`byre/scoring.py`), the content-store path
fingerprint (`byre/storage.py`), and the greedy eviction/acquisition
planner (`byre/planning.py`).

Modelling conventions:
* Python floats are modelled by `ℚ` (the arithmetic used by the embedded
  code is `+ - * / min` and comparisons, which are exact on the decimal
  literals involved; no float-rounding-sensitive behaviour is claimed).
* Python dicts are modelled by association lists with unique keys
  (`dictGet` / `dictSet` below), insertion-ordered like CPython dicts.
* I/O-backed values are passed as explicit parameters:
  `psutil.disk_usage(dir).free` becomes a `disk_free : String → ℚ`
  argument, `time.time()` becomes `now : ℚ`, and the SQLite-backed
  `TorrentStore.save_extra_torrents` path-structure hash becomes a
  `path_hash : LocalTorrent → String` argument.
* `math.exp` is kept abstract as a parameter `exp : ℚ → ℚ` of the scorer;
  no theorem below depends on its values.
-/

namespace Byre

/-! ## Python-dict model

Insertion-ordered association lists with unique keys.  `dictSet` updates an
existing key in place (keeping its position) or appends a new binding, which
is exactly CPython's `d[k] = v`. -/

/-- Python `d.get(k)` on a dict (`None` when the key is absent). -/
def dictGet {κ α : Type} [DecidableEq κ] : List (κ × α) → κ → Option α
  | [], _ => none
  | p :: d, k => if p.1 = k then some p.2 else dictGet d k

/-- Python `d[k] = v` on a dict: update in place or append. -/
def dictSet {κ α : Type} [DecidableEq κ] : List (κ × α) → κ → α → List (κ × α)
  | [], k, v => [(k, v)]
  | p :: d, k, v => if p.1 = k then (k, v) :: d else p :: dictSet d k v

/-- Python `d.get(k, default)`. -/
def dictGetD {κ α : Type} [DecidableEq κ] (d : List (κ × α)) (k : κ) (v : α) : α :=
  (dictGet d k).getD v

/-! ## Data model (`byre/clients/data.py`)

Only the fields read by the embedded scorer, store and planner code are
kept; presentation-only fields of the python dataclasses (sub-title,
uploader, comment counts, tags, ...) are omitted. -/

/-- Enum `TorrentPromotion` (`byre/clients/data.py`): promotion categories. -/
inductive TorrentPromotion : Type
  | ANY
  | NONE
  | FREE
  | X2
  | FREE_X2
  | HALF_OFF
  | HALF_OFF_X2
  | THIRTY_PERCENT
deriving DecidableEq, Repr

def PROMOTION_THIRTY_DOWN : String := "thirty_down"

def PROMOTION_HALF_DOWN : String := "half_down"

def PROMOTION_TWO_UP : String := "two_up"

def PROMOTION_FREE : String := "free"

/-- Method `TorrentPromotion.get_promotions`. -/
def TorrentPromotion.get_promotions : TorrentPromotion → List String
  | .ANY => []
  | .NONE => []
  | .FREE => [PROMOTION_FREE]
  | .X2 => [PROMOTION_TWO_UP]
  | .FREE_X2 => [PROMOTION_FREE, PROMOTION_TWO_UP]
  | .HALF_OFF => [PROMOTION_HALF_DOWN]
  | .HALF_OFF_X2 => [PROMOTION_HALF_DOWN, PROMOTION_TWO_UP]
  | .THIRTY_PERCENT => [PROMOTION_THIRTY_DOWN]

/-- Membership `TorrentPromotion.__contains__`: `ANY` contains everything. -/
def TorrentPromotion.contains (p : TorrentPromotion) (item : String) : Bool :=
  if p = TorrentPromotion.ANY then true else item ∈ p.get_promotions

/-- Dataclass `TorrentInfo` (`byre/clients/data.py`), restricted to the fields the
scorer and planner read. -/
structure TorrentInfo : Type where
  title : String
  seed_id : ℤ
  category : String
  promotions : TorrentPromotion
  file_size : ℚ
  live_time : ℚ
  seeders : ℤ
  leechers : ℤ
  finished : ℤ
  hash : String
deriving DecidableEq, Repr

/-- The fields of a `qbittorrentapi.TorrentDictionary` that the embedded
code reads (`torrent.torrent.xxx` accesses).  `save_path` stands for the
already-`realpath`-resolved save location. -/
structure QbTorrent : Type where
  hash : String
  name : String
  category : String
  size : ℚ
  upspeed : ℚ
  amount_left : ℚ
  completion_on : ℚ
  last_activity : ℚ
  num_complete : ℤ
  num_incomplete : ℤ
  save_path : String
deriving DecidableEq, Repr

/-- Dataclass `LocalTorrent` (`byre/clients/data.py`, as constructed by `byre/bt.py`
with a `site` field). -/
structure LocalTorrent : Type where
  torrent : QbTorrent
  seed_id : ℤ
  site : String
  info : Option TorrentInfo
deriving DecidableEq, Repr

/-- Method `LocalTorrent.estimate_info`; `time.time()` is the `now` parameter.
Omitted python fields are presentation-only. -/
def LocalTorrent.estimate_info (t : LocalTorrent) (now : ℚ) : TorrentInfo :=
  match t.info with
  | some info => info
  | none =>
    { title := t.torrent.name
      seed_id := t.seed_id
      category := t.torrent.category
      promotions := TorrentPromotion.NONE
      file_size := t.torrent.size / 1000 ^ 3
      live_time := (now - t.torrent.last_activity) / (24 * 60 * 60)
      seeders := t.torrent.num_complete
      leechers := t.torrent.num_incomplete
      finished := 0
      hash := t.torrent.hash }

/-! ## Scorer (`byre/scoring.py`) -/

/-- Function `_piecewise_linear` (`byre/scoring.py`).  The python function raises on
an empty point list or decreasing x-coordinates; the scorer only ever calls
it on its two fixed, nonempty, strictly increasing weight lists, so those
error branches are unreachable and the empty case is defaulted to `0`. -/
def piecewise_linear : List (ℚ × ℚ) → ℚ → ℚ
  | [], _ => 0
  | (x1, y1) :: rest, x =>
    if x < x1 then y1
    else
      match rest with
      | [] => y1
      | (x2, y2) :: _ =>
        if x < x2 then (y2 - y1) / (x2 - x1) * (x - x1) + y1
        else piecewise_linear rest x

/-- Function `_sigmoid` (`byre/scoring.py`); `math.exp` is the abstract parameter
`exp` (the python `OverflowError` guard is a property of floats and is not
modelled — no theorem below looks at values of `exp`). -/
def sigmoid (exp : ℚ → ℚ) (x : ℚ) : ℚ := 1 / (1 + exp (-x))

/-- The `Scorer` configuration (`byre/scoring.py`). -/
structure Scorer : Type where
  free_weight : ℚ
  cost_recovery_days : ℚ
  removal_exemption_days : ℚ
deriving DecidableEq, Repr

/-- Constant `Scorer.file_size_weights`. -/
def Scorer.file_size_weights : List (ℚ × ℚ) :=
  [(0, 0.1), (2, 1.0), (15, 1.0), (60, 0.1), (500, 0.01)]

/-- Constant `Scorer.leecher_weights`. -/
def Scorer.leecher_weights : List (ℚ × ℚ) :=
  [(0, 0.1), (2, 0.6), (6, 0.9), (10, 1.0)]

/-- Method `Scorer.score_downloading` (`byre/scoring.py`): the acquisition score.
Structure and evaluation order follow the python line by line; the
promotion-discount dict iterates in insertion order FREE, HALF, THIRTY. -/
def Scorer.score_downloading (s : Scorer) (exp : ℚ → ℚ) (torrent : TorrentInfo)
    (recovery : Bool := true) : ℚ :=
  if torrent.seeders ≤ 0 then 0
  else if torrent.leechers ≤ 0 then 0
  else
    let finished_ratio : ℚ := 0.5 * sigmoid exp (-torrent.live_time + 30) + 0.5
    let value : ℚ :=
      ((finished_ratio * (torrent.finished : ℚ) + (torrent.leechers : ℚ) * 1.5)
          / (torrent.live_time + 2) + (torrent.leechers : ℚ))
        / ((torrent.seeders : ℚ) + (torrent.leechers : ℚ) + 1)
    let value := value * piecewise_linear Scorer.leecher_weights (torrent.leechers : ℚ)
    let value := if torrent.promotions.contains PROMOTION_TWO_UP then value * 2 else value
    let value :=
      if torrent.promotions.contains PROMOTION_FREE then value * (1 + s.free_weight * 1)
      else if torrent.promotions.contains PROMOTION_HALF_DOWN then
        value * (1 + s.free_weight * 0.5)
      else if torrent.promotions.contains PROMOTION_THIRTY_DOWN then
        value * (1 + s.free_weight * 0.7)
      else value
    let size_ratio : ℚ :=
      sigmoid exp ((finished_ratio + (torrent.finished : ℚ)) / (torrent.live_time + 1) - 20)
    let value :=
      value * ((1 - size_ratio) * piecewise_linear Scorer.file_size_weights torrent.file_size
        + size_ratio)
    if recovery ∧ value < 1 / s.cost_recovery_days then 0 else value

/-- Method `Scorer.score_uploading` (`byre/scoring.py`): the retain score, `-1`
meaning "protected, never evict". -/
def Scorer.score_uploading (s : Scorer) (exp : ℚ → ℚ) (now : ℚ) (torrent : LocalTorrent) : ℚ :=
  if 5 * 1024 < torrent.torrent.upspeed then -1
  else if 0 < torrent.torrent.amount_left then -1
  else if now < torrent.torrent.completion_on + s.removal_exemption_days * 24 * 60 * 60 then -1
  else
    let info := torrent.estimate_info now
    if info.seeders ≤ 1 then -1
    else s.score_downloading exp info false

/-! ## Content store fingerprint (`byre/storage.py`)

`TorrentStore.hash_paths` feeds `b"\0".join(sorted(encoded entries))` to
SHA-256 and returns the hex digest.  The digest is a fixed deterministic
function of that byte string, so the fingerprint is modelled as the byte
string itself (as a `List ℕ` of UTF-8 code points; byte-wise lexicographic
order on UTF-8 agrees with code-point order, so python's `sorted` over the
encoded byte strings is the lexicographic sort modelled here).  Equal model
values correspond to equal digests; distinct model values correspond to
distinct digests up to SHA-256 collisions, which the repository's own
design treats as negligible. -/

/-- The `no_backslash` helper inside `TorrentStore.hash_paths`:
`s.replace("\\", "/")`, a single-character replacement. -/
def no_backslash (s : String) : String :=
  String.mk (s.data.map (fun c => if c = '\\' then '/' else c))

/-- One `f"{no_backslash(path)} {size}".encode("utf-8")` entry, as the list
of its code points. -/
def pathEntry (p : String × ℕ) : List ℕ :=
  (no_backslash p.1 ++ " " ++ toString p.2).data.map Char.toNat

/-- Bool lexicographic `≤` on byte strings (python's `sorted` order). -/
def lexLeb : List ℕ → List ℕ → Bool
  | [], _ => true
  | _ :: _, [] => false
  | a :: as, b :: bs => if a < b then true else if b < a then false else lexLeb as bs

/-- Python `b"\0".join(...)`. -/
def joinNul : List (List ℕ) → List ℕ
  | [] => []
  | [x] => x
  | x :: y :: ys => x ++ 0 :: joinNul (y :: ys)

namespace TorrentStore

/-- Method `TorrentStore.hash_paths` (`byre/storage.py`), with the SHA-256 hex
digest modelled as its pre-image byte string (see the section comment).
The python argument is a `dict[str, int]`; the model takes the list of its
items. -/
def hash_paths (paths : List (String × ℕ)) : List ℕ :=
  joinNul (List.insertionSort (fun a b => lexLeb a b = true) (paths.map pathEntry))

end TorrentStore

/-! ## Planner (`byre/planning.py`) -/

/-- Dataclass `PlannerConfig` (`byre/planning.py`).  The `remaining` field defaults
to `0.`; no caller of the repository ever sets it (`commands/main.py`
constructs configs without it), a fact claims C4 hinges on. -/
structure PlannerConfig : Type where
  max_total_size : ℚ
  max_download_size : ℚ
  download_dir : String
  remaining : ℚ := 0
deriving DecidableEq, Repr

/-- Method `PlannerConfig.clamp` (`byre/planning.py:61`), with
`psutil.disk_usage(...).free` passed in as `disk_remaining`.  Returns the
updated config (python mutates `self.max_total_size`). -/
def PlannerConfig.clamp (c : PlannerConfig) (disk_remaining used : ℚ) : PlannerConfig :=
  let max_total_size := used + disk_remaining
  let max_total_size :=
    if 0 < c.max_total_size then min max_total_size c.max_total_size else max_total_size
  { c with max_total_size := max_total_size }

/-- Method `PlannerConfig.is_under_current_dir` (`byre/planning.py:74`).  The
python walks `os.path.realpath` ancestors of the torrent's save path and
compares them to `download_dir` with `os.path.samefile`; the filesystem is
abstracted away by taking `QbTorrent.save_path` to be the resolved
partition root, so the check is equality with `download_dir`. -/
def PlannerConfig.is_under_current_dir (c : PlannerConfig) (torrent : LocalTorrent) : Bool :=
  torrent.torrent.save_path = c.download_dir

/-- The mutable closure state of `PlannerConfig.downloader`
(`byre/planning.py:88`): `downloaded`, the cursor `i`, the nonlocal
`remaining` (initialised by `Planner.plan` to
`config.max_total_size - used_space`), and `self.remaining` (the
`PlannerConfig.remaining` field, which `try_download` reads at line 105 and
decrements at line 107). -/
structure TryState : Type where
  downloaded : ℚ
  i : ℕ
  remaining : ℚ
  self_remaining : ℚ
deriving DecidableEq, Repr

/-- Result of the `for j, (torrent, torrent_score) in enumerate(scored_local[i:])`
scan inside `try_download` (`byre/planning.py:113`): either the whole call
returns `None` (loop exhausted via `for...else`, or a blocking item hit
`return None` at line 122), or the loop `break`s at relative index `j`
with the accumulated `removable_size` and `removable` list. -/
inductive ScanResult : Type
  | fail
  | commit (j : ℕ) (removable_size : ℚ) (removable : List (LocalTorrent × ℚ))
deriving DecidableEq, Repr

/-- The scan loop of `try_download` (`byre/planning.py:111`–`128`),
translated clause by clause.  `rh` models the `removable_hashes` dict and
`dups` the `duplicates` dict (as total functions: in `Planner.plan` every
hash looked up is a key of the respective dict, because class-mates are
always themselves registered local torrents).  `j`, `removable_size` and
`removable` are the loop accumulators. -/
def scanRemovable (rh : String → ℚ) (dups : String → List LocalTorrent)
    (score file_size remaining : ℚ) :
    List (LocalTorrent × ℚ) → ℕ → ℚ → List (LocalTorrent × ℚ) → ScanResult
  | [], _, _, _ => ScanResult.fail
  | (torrent, torrent_score) :: rest, j, removable_size, removable =>
    if score ≤ torrent_score ∨ torrent_score < 0 then
      scanRemovable rh dups score file_size remaining rest (j + 1) removable_size removable
    else if (dups torrent.torrent.hash).any (fun t => rh t.torrent.hash < 0) then
      scanRemovable rh dups score file_size remaining rest (j + 1) removable_size removable
    else
      let torrent_score :=
        torrent_score + ((dups torrent.torrent.hash).map (fun t => rh t.torrent.hash)).sum
      if score ≤ torrent_score then ScanResult.fail
      else
        let removable_size := removable_size + torrent.torrent.size
        let removable := removable ++ [(torrent, torrent_score)]
        if file_size < removable_size + remaining then ScanResult.commit j removable_size removable
        else scanRemovable rh dups score file_size remaining rest (j + 1) removable_size removable

/-- Closure `try_download` (`byre/planning.py:95`–`132`), the closure returned by
`PlannerConfig.downloader`, with its mutable state passed explicitly.
`scored_local` is the already-filtered (`site == "byr"`) list fixed at
closure creation.  Returns the python return value together with the new
state.  Note the faithfully reproduced quirks: the direct-commit branch
compares against `self.remaining` (`st.self_remaining`), not the nonlocal
`remaining`, and a commit sets the cursor to `j + 1` where `j` is the
enumerate index of the *slice* `scored_local[i:]`. -/
def try_download (max_download_size : ℚ) (scored_local : List (LocalTorrent × ℚ))
    (rh : String → ℚ) (dups : String → List LocalTorrent)
    (candidate : TorrentInfo) (score : ℚ) (ex : Bool) (st : TryState) :
    Option (ℚ × List (LocalTorrent × ℚ)) × TryState :=
  if max_download_size < st.downloaded + candidate.file_size then (none, st)
  else if score = 0 then (none, st)
  else if candidate.file_size < st.self_remaining ∨ ex then
    if ex then (some (0, []), st)
    else
      (some (0, []),
        { st with
          self_remaining := st.self_remaining - candidate.file_size
          downloaded := st.downloaded + candidate.file_size })
  else
    match scanRemovable rh dups score candidate.file_size st.remaining
        (scored_local.drop st.i) 0 0 [] with
    | ScanResult.fail => (none, st)
    | ScanResult.commit j removable_size removable =>
      (some (candidate.file_size, removable),
        { st with
          remaining := st.remaining + removable_size - candidate.file_size
          downloaded := st.downloaded + candidate.file_size
          i := j + 1 })

/-- Class `Planner` (`byre/planning.py:137`). -/
structure Planner : Type where
  configs : List PlannerConfig

/-- One iteration of the torrent loop of `Planner.merge_torrent_info`
(`byre/planning.py:217`–`233`).  The accumulator is
`(total, local, path_torrents)`; `path_hash` models the `path_hash` column
produced by `cache.save_extra_torrents`.  The `for config ... break / else`
is `List.find?`; an unmatched torrent is only logged. -/
def mergeStep (configs : List PlannerConfig) (path_hash : LocalTorrent → String)
    (acc : List (String × ℚ) × List (String × List (LocalTorrent × ℚ))
      × List (String × List LocalTorrent))
    (ts : LocalTorrent × ℚ) :
    List (String × ℚ) × List (String × List (LocalTorrent × ℚ))
      × List (String × List LocalTorrent) :=
  match configs.find? (fun c => c.is_under_current_dir ts.1) with
  | none => acc
  | some config =>
    let ph := path_hash ts.1
    match dictGet acc.2.2 ph with
    | some same =>
      (acc.1,
        dictSet acc.2.1 config.download_dir (dictGetD acc.2.1 config.download_dir [] ++ [ts]),
        dictSet acc.2.2 ph (same ++ [ts.1]))
    | none =>
      (match dictGet acc.1 config.download_dir with
        | some v => dictSet acc.1 config.download_dir (v + ts.1.torrent.size)
        | none => dictSet acc.1 config.download_dir ts.1.torrent.size,
        dictSet acc.2.1 config.download_dir (dictGetD acc.2.1 config.download_dir [] ++ [ts]),
        dictSet acc.2.2 ph [ts.1])

/-- The `duplicates` dict built for one `path_torrents` class
(`byre/planning.py:236`–`244`): each member maps to the other members.
Python's `dict((t.torrent.hash, t) for t in same_torrents)` and the
`hashes.keys() - {torrent.hash}` set difference are modelled in insertion
order. -/
def classDuplicates (same : List LocalTorrent) : List (String × List LocalTorrent) :=
  if 1 < same.length then
    let hashes := same.foldl (fun d t => dictSet d t.torrent.hash t) []
    hashes.map (fun p => (p.1, (hashes.filter (fun q => q.1 ≠ p.1)).map (fun q => q.2)))
  else
    match same with
    | [t] => [(t.torrent.hash, [])]
    | _ => []

/-- Method `Planner.merge_torrent_info` (`byre/planning.py:209`): returns
`(total, local, duplicates)`. -/
def Planner.merge_torrent_info (p : Planner) (path_hash : LocalTorrent → String)
    (local_torrents : List (LocalTorrent × ℚ)) :
    List (String × ℚ) × List (String × List (LocalTorrent × ℚ))
      × List (String × List LocalTorrent) :=
  let r := local_torrents.foldl (mergeStep p.configs path_hash) ([], [], [])
  (r.1, r.2.1,
    r.2.2.foldl
      (fun d same => (classDuplicates same.2).foldl (fun d kv => dictSet d kv.1 kv.2) d) [])

/-- The `removable_hashes` construction in `Planner.plan`
(`byre/planning.py:152`–`154`).  `local[config.download_dir]` is a plain
dict indexing: a configured partition whose directory groups no held item
raises `KeyError` (the `or []` only guards a falsy value, which cannot
arise).  The `KeyError` is modelled as `Except.error`. -/
def buildRemovableHashes :
    List PlannerConfig → List (String × List (LocalTorrent × ℚ)) → List (String × ℚ) →
      Except String (List (String × ℚ))
  | [], _, rh => Except.ok rh
  | config :: rest, locals, rh =>
    match dictGet locals config.download_dir with
    | none => Except.error ("KeyError: " ++ config.download_dir)
    | some lst =>
      buildRemovableHashes rest locals
        (lst.foldl (fun d ts => dictSet d ts.1.torrent.hash ts.2) rh)

/-- The per-partition data captured by one `config.downloader(...)` closure
in `Planner.plan` (`byre/planning.py:157`–`165`): the directory key, the
fixed `max_download_size`, the `site == "byr"`-filtered scored list, and
the mutable `TryState`. -/
structure PartPlanner : Type where
  dir : String
  max_download_size : ℚ
  scored_local : List (LocalTorrent × ℚ)
  st : TryState
deriving DecidableEq, Repr

/-- Strict lexicographic order on the sort keys
`(to_be_downloaded, sacrificed_score_sum, directory)` used by
`sorted(...)[0]` in `Planner.plan` (`byre/planning.py:176`–`179`). -/
def planKeyLt (a b : ℚ × ℚ × String) : Bool :=
  if a.1 < b.1 then true
  else if b.1 < a.1 then false
  else if a.2.1 < b.2.1 then true
  else if b.2.1 < a.2.1 then false
  else a.2.2 < b.2.2

/-- Python `sorted(l)[0]`: the minimum of the keyed list (keys are distinct in
`Planner.plan` since dict keys are distinct directories). -/
def chooseMin {α : Type} : List ((ℚ × ℚ × String) × α) → Option ((ℚ × ℚ × String) × α)
  | [] => none
  | x :: xs => some (xs.foldl (fun best y => if planKeyLt y.1 best.1 then y else best) x)

/-- One `plan = planners[config.download_dir](candidate, score, exists)`
call inside the per-candidate loop of `Planner.plan`
(`byre/planning.py:170`–`173`): the closure for this config's directory is
invoked (mutating that partition's state even when its offer is not
chosen), and a non-`None` offer is recorded in the `plans` dict. -/
def planPartStep (rh : String → ℚ) (dups : String → List LocalTorrent) (ex : Bool)
    (cs : TorrentInfo × ℚ)
    (st : List (String × PartPlanner) × List (String × (ℚ × List (LocalTorrent × ℚ))))
    (config : PlannerConfig) :
    List (String × PartPlanner) × List (String × (ℚ × List (LocalTorrent × ℚ))) :=
  match dictGet st.1 config.download_dir with
  | none => st
  | some pp =>
    let r := try_download pp.max_download_size pp.scored_local rh dups cs.1 cs.2 ex pp.st
    match r.1 with
    | none => (dictSet st.1 config.download_dir { pp with st := r.2 }, st.2)
    | some pl =>
      (dictSet st.1 config.download_dir { pp with st := r.2 },
        dictSet st.2 config.download_dir pl)

/-- One candidate iteration of the main loop of `Planner.plan`
(`byre/planning.py:168`–`181`).  The planners dict is keyed by directory;
`plans` is rebuilt per candidate, the minimum-key offer (if any) is
committed. -/
def planStep (configs : List PlannerConfig) (rh : String → ℚ)
    (dups : String → List LocalTorrent) (ex : Bool)
    (acc : List (LocalTorrent × String) × List (TorrentInfo × String)
      × List (String × PartPlanner))
    (cs : TorrentInfo × ℚ) :
    List (LocalTorrent × String) × List (TorrentInfo × String)
      × List (String × PartPlanner) :=
  let r := configs.foldl (planPartStep rh dups ex cs) (acc.2.2, [])
  match chooseMin (r.2.map (fun dp =>
      ((dp.2.1, ((dp.2.2.map (fun y => y.2)).sum), dp.1), dp))) with
  | none => (acc.1, acc.2.1, r.1)
  | some (_, dir, pl) =>
    (acc.1 ++ pl.2.map (fun t => (t.1, dir)),
      acc.2.1 ++ [(cs.1, dir)],
      r.1)

/-- Construction of one partition's `config.downloader(...)` closure in
`Planner.plan` (`byre/planning.py:157`–`165`): the config is clamped, the
scored list filtered to `site == "byr"` (`byre/planning.py:93`), and the
closure state initialised (`downloaded = 0`, cursor `i = 0`,
`remaining = config.max_total_size - used_space`, and `self.remaining`
left at the config field's value). -/
def planInitStep (used_spaces : List (String × ℚ))
    (locals : List (String × List (LocalTorrent × ℚ))) (disk_free : String → ℚ)
    (d : List (String × PartPlanner)) (config : PlannerConfig) :
    List (String × PartPlanner) :=
  let used_space := dictGetD used_spaces config.download_dir 0
  let config2 := config.clamp (disk_free config.download_dir) used_space
  dictSet d config.download_dir
    { dir := config.download_dir
      max_download_size := config2.max_download_size
      scored_local :=
        (dictGetD locals config.download_dir []).filter (fun ts => ts.1.site = "byr")
      st :=
        { downloaded := 0
          i := 0
          remaining := config2.max_total_size - used_space
          self_remaining := config2.remaining } }

/-- Method `Planner.plan` (`byre/planning.py:143`–`182`).  `path_hash` stands for
the `TorrentStore` cache (see `Planner.merge_torrent_info`), `disk_free`
for `psutil.disk_usage(dir).free`.  The python `KeyError` of the
`removable_hashes` construction is `Except.error`; on success the returned
triple is `(removable, downloadable, duplicates)`. -/
def Planner.plan (p : Planner) (path_hash : LocalTorrent → String) (disk_free : String → ℚ)
    (scored_local : List (LocalTorrent × ℚ)) (remote : List (TorrentInfo × ℚ)) (ex : Bool) :
    Except String (List (LocalTorrent × String) × List (TorrentInfo × String)
      × List (String × List LocalTorrent)) :=
  let m := p.merge_torrent_info path_hash scored_local
  let used_spaces := m.1
  let locals := m.2.1
  let duplicates := m.2.2
  match buildRemovableHashes p.configs locals [] with
  | Except.error e => Except.error e
  | Except.ok removable_hashes =>
    let rh := fun h => dictGetD removable_hashes h 0
    let dups := fun h => dictGetD duplicates h []
    let planners := p.configs.foldl (planInitStep used_spaces locals disk_free) []
    let r := remote.foldl (planStep p.configs rh dups ex) ([], [], planners)
    Except.ok (r.1, r.2.1, duplicates)

/-! ## Specification-side definitions used to state the claims -/

/-- Path-separator canonicalisation of one manifest entry (the
specification's normalisation of a `(path, size)` pair). -/
def normPair (p : String × ℕ) : String × ℕ := (no_backslash p.1, p.2)

/-- A manifest entry with an already-canonical path. -/
def normEntry (q : String × ℕ) : List ℕ :=
  (q.1 ++ " " ++ toString q.2).data.map Char.toNat

/-- The sequence of held items that `Planner.merge_torrent_info` assigns to
a partition, in processing order, paired with that partition's directory
(the `for config ... if config.is_under_current_dir(torrent) ... break`
dispatch). -/
def assignedSeq (configs : List PlannerConfig) (local_torrents : List (LocalTorrent × ℚ)) :
    List (LocalTorrent × String) :=
  local_torrents.filterMap (fun ts =>
    (configs.find? (fun c => c.is_under_current_dir ts.1)).map
      (fun c => (ts.1, c.download_dir)))

/-- Reference description of the used-bytes accounting that
`Planner.merge_torrent_info` actually performs, against which the claimed
per-partition-scoped accounting is compared: walking the assigned items in
order, an item whose path-structure fingerprint was already seen — in ANY
partition — contributes nothing; an item with a fresh fingerprint
contributes its size to its own partition's total.  `seen` is the set of
fingerprints already encountered. -/
def dedupUsedBytes (path_hash : LocalTorrent → String) (dir : String) :
    List (LocalTorrent × String) → List String → ℚ
  | [], _ => 0
  | (t, d) :: rest, seen =>
    if path_hash t ∈ seen then dedupUsedBytes path_hash dir rest seen
    else
      (if d = dir then t.torrent.size else 0)
        + dedupUsedBytes path_hash dir rest (path_hash t :: seen)

/-! ## Concrete fixtures used by counterexamples and witnesses -/

/-- A minimal local torrent: hash `h`, size, save path `dir`, site `byr`,
everything else inert. -/
def mkLocal (h : String) (size : ℚ) (dir : String) : LocalTorrent :=
  { torrent :=
      { hash := h
        name := h
        category := ""
        size := size
        upspeed := 0
        amount_left := 0
        completion_on := 0
        last_activity := 0
        num_complete := 0
        num_incomplete := 0
        save_path := dir }
    seed_id := 0
    site := "byr"
    info := none }

/-- A minimal remote candidate of the given size. -/
def mkInfo (h : String) (size : ℚ) : TorrentInfo :=
  { title := h
    seed_id := 1
    category := ""
    promotions := TorrentPromotion.NONE
    file_size := size
    live_time := 0
    seeders := 1
    leechers := 1
    finished := 0
    hash := h }

/-- Three unprotected held items of size 10, retain score `0.1` each. -/
def exHeldA : List (LocalTorrent × ℚ) :=
  [(mkLocal "a" 10 "d", 0.1), (mkLocal "b" 10 "d", 0.1), (mkLocal "c" 10 "d", 0.1)]

/-- Three unprotected held items of size 10, retain score `0.4` each. -/
def exHeldB : List (LocalTorrent × ℚ) :=
  [(mkLocal "a" 10 "d", 0.4), (mkLocal "b" 10 "d", 0.4), (mkLocal "c" 10 "d", 0.4)]

/-- A single-partition planner: directory `d`, cap 100, download cap 1000. -/
def exPlanner : Planner :=
  ⟨[{ max_total_size := 100, max_download_size := 1000, download_dir := "d" }]⟩

/-- A two-partition planner over directories `d1` and `d2`. -/
def exPlanner2 : Planner :=
  ⟨[{ max_total_size := 100, max_download_size := 1000, download_dir := "d1" },
    { max_total_size := 100, max_download_size := 1000, download_dir := "d2" }]⟩

/-! ## Association-list lemmas -/

lemma dictGet_dictSet {κ α : Type} [DecidableEq κ] (d : List (κ × α)) (k k' : κ) (v : α) :
    dictGet (dictSet d k v) k' = if k = k' then some v else dictGet d k' := by
  induction d with
  | nil => simp [dictGet, dictSet]
  | cons p rest ih =>
    rcases p with ⟨a, b⟩
    by_cases hak : a = k
    · subst hak
      by_cases hk : a = k'
      · subst hk; simp [dictSet, dictGet]
      · simp [dictSet, dictGet, hk]
    · by_cases hk' : a = k'
      · subst hk'
        have hka : ¬k = a := fun h => hak h.symm
        simp [dictSet, dictGet, hak, hka]
      · simp [dictSet, dictGet, hak, hk', ih]

lemma mem_dictSet {κ α : Type} [DecidableEq κ] (d : List (κ × α)) (k : κ) (v : α) :
    ∀ e ∈ dictSet d k v, e = (k, v) ∨ e ∈ d := by
  induction d with
  | nil => simp [dictSet]
  | cons p rest ih =>
    intro e he
    by_cases hak : p.1 = k
    · rw [dictSet, if_pos hak] at he
      rcases List.mem_cons.mp he with rfl | h
      · exact Or.inl rfl
      · exact Or.inr (List.mem_cons_of_mem _ h)
    · rw [dictSet, if_neg hak] at he
      rcases List.mem_cons.mp he with rfl | h
      · exact Or.inr (List.mem_cons_self _ _)
      · rcases ih e h with h' | h'
        · exact Or.inl h'
        · exact Or.inr (List.mem_cons_of_mem _ h')

/-! ## Claim C6 — the capacity clamp -/

/-- C6: `PlannerConfig.clamp` resolves the effective capacity to
`used + free_disk` when the configured cap is `0`, and to
`min(configured cap, used + free_disk)` when the cap is positive; in
particular cap `0`, used `10`, free `50` resolves to `60`. -/
theorem clamp_effective_cap (c : PlannerConfig) (free used : ℚ) :
    (c.max_total_size = 0 → (c.clamp free used).max_total_size = used + free)
    ∧ (0 < c.max_total_size →
        (c.clamp free used).max_total_size = min c.max_total_size (used + free))
    ∧ (PlannerConfig.clamp ⟨0, 0, "", 0⟩ 50 10).max_total_size = 60 := by
  refine ⟨fun h => ?_, fun h => ?_, by norm_num [PlannerConfig.clamp]⟩
  · simp [PlannerConfig.clamp, h]
  · simp only [PlannerConfig.clamp, if_pos h]
    exact min_comm _ _

/-- Witness for `clamp_effective_cap` at cap `0`, free `50`, used `10`. -/
theorem clamp_effective_cap_witness :
    (PlannerConfig.max_total_size ⟨0, 0, "", 0⟩ = 0)
    ∧ (PlannerConfig.clamp ⟨0, 0, "", 0⟩ 50 10).max_total_size = 10 + 50 :=
  ⟨rfl, (clamp_effective_cap ⟨0, 0, "", 0⟩ 50 10).1 rfl⟩

/-! ## Claim C3 — the eviction cursor -/

/-- C3 (failing run): the cursor is NOT monotone.  After a first commit
evicting the items at absolute indices 0 and 1 the cursor stands at `2`,
but a second commit evicting the item at absolute index 2 (relative index
`j = 0` in the slice `scored_local[i:]`) resets the cursor to `j + 1 = 1`
(`byre/planning.py:131` uses the slice-relative index).  A third candidate
then re-selects the index-1 item `"b"` for eviction even though the first
commit already evicted it. -/
theorem cursor_moves_backward :
    ((try_download 1000 exHeldA (fun _ => 0.1) (fun _ => []) (mkInfo "x" 15) 1 false
        ⟨0, 0, 0, 0⟩).1
      = some (15, [(mkLocal "a" 10 "d", 0.1), (mkLocal "b" 10 "d", 0.1)]))
    ∧ ((try_download 1000 exHeldA (fun _ => 0.1) (fun _ => []) (mkInfo "x" 15) 1 false
        ⟨0, 0, 0, 0⟩).2.i = 2)
    ∧ ((try_download 1000 exHeldA (fun _ => 0.1) (fun _ => []) (mkInfo "y" 12) 1 false
        (try_download 1000 exHeldA (fun _ => 0.1) (fun _ => []) (mkInfo "x" 15) 1 false
          ⟨0, 0, 0, 0⟩).2).2.i = 1)
    ∧ ((try_download 1000 exHeldA (fun _ => 0.1) (fun _ => []) (mkInfo "z" 11) 1 false
        (try_download 1000 exHeldA (fun _ => 0.1) (fun _ => []) (mkInfo "y" 12) 1 false
          (try_download 1000 exHeldA (fun _ => 0.1) (fun _ => []) (mkInfo "x" 15) 1 false
            ⟨0, 0, 0, 0⟩).2).2).1
      = some (11, [(mkLocal "b" 10 "d", 0.1)])) := by
  norm_num [try_download, scanRemovable, exHeldA, mkLocal, mkInfo]

/-! ## Claim C4 — the direct-commit branch -/

/-- C4 (failing run): a candidate of size 10 is offered to a partition with
free headroom `95` (effective cap 100, used 5) and an otherwise
unevictable content set; the claim says it is committed with an empty
eviction list, but `Planner.plan` returns an empty acquisition list — the
direct-commit branch at `byre/planning.py:105` compares against
`self.remaining`, the never-initialised `PlannerConfig.remaining` field
(which stays `0`), not against the computed headroom. -/
theorem direct_commit_never_fires :
    (exPlanner.plan (fun t => t.torrent.hash) (fun _ => 100)
        [(mkLocal "a" 5 "d", -1)] [(mkInfo "x" 10, 1)] false
      = Except.ok ([], [], [("a", [])]))
    ∧ (({ max_total_size := 100, max_download_size := 1000, download_dir := "d" }
          : PlannerConfig).clamp 100 5).max_total_size - 5 = 95
    ∧ ((10 : ℚ) ≤ 95) := by
  norm_num [Planner.plan, Planner.merge_torrent_info, mergeStep, buildRemovableHashes,
    planInitStep, planStep, planPartStep, try_download, scanRemovable, chooseMin,
    classDuplicates, dictGet, dictSet, dictGetD, PlannerConfig.clamp,
    PlannerConfig.is_under_current_dir, exPlanner, mkLocal, mkInfo]

/-! ## Claim C2 — the sacrificed-value rule -/

/-- C2 (counterexample): no cumulative sacrificed-value total exists.  With
candidate score `1`, three class-free held items of retain score `0.4` are
all selected — cumulative sacrificed value `1.2 ≥ 1`, at which point the
claim demands the partition be abandoned — yet `try_download` commits. -/
theorem sacrificed_value_not_cumulative :
    ((try_download 1000 exHeldB (fun _ => 0.4) (fun _ => []) (mkInfo "x" 25) 1 false
        ⟨0, 0, 0, 0⟩).1
      = some (25, [(mkLocal "a" 10 "d", 0.4), (mkLocal "b" 10 "d", 0.4),
          (mkLocal "c" 10 "d", 0.4)]))
    ∧ ((1 : ℚ) ≤ 0.4 + 0.4 + 0.4) := by
  norm_num [try_download, scanRemovable, exHeldB, mkLocal, mkInfo]

/-! ## Claim C5 — dedup scoping -/

/-- C5 (counterexample): content-equivalence grouping is NOT scoped per
partition.  Items `t1` (partition `d1`, size 10) and `t2` (partition `d2`,
size 20) share a fingerprint; `merge_torrent_info` returns used-bytes
totals `[("d1", 10)]` — partition `d2`'s sole item contributes nothing to
`d2`'s total (the claim requires 20) — and groups the two cross-partition
items into one duplicates class. -/
theorem dedup_not_partition_scoped :
    ((exPlanner2.merge_torrent_info (fun _ => "p")
        [(mkLocal "t1" 10 "d1", 0.5), (mkLocal "t2" 20 "d2", 0.5)]).1 = [("d1", 10)])
    ∧ (dictGet (exPlanner2.merge_torrent_info (fun _ => "p")
        [(mkLocal "t1" 10 "d1", 0.5), (mkLocal "t2" 20 "d2", 0.5)]).1 "d2" = none)
    ∧ ((exPlanner2.configs.find?
          (fun c => c.is_under_current_dir (mkLocal "t2" 20 "d2"))).map
            PlannerConfig.download_dir = some "d2")
    ∧ ((mkLocal "t2" 20 "d2").torrent.size = 20)
    ∧ (dictGet (exPlanner2.merge_torrent_info (fun _ => "p")
        [(mkLocal "t1" 10 "d1", 0.5), (mkLocal "t2" 20 "d2", 0.5)]).2.2 "t2"
      = some [mkLocal "t1" 10 "d1"]) := by
  simp [Planner.merge_torrent_info, mergeStep, classDuplicates, dictGet, dictSet,
    dictGetD, PlannerConfig.is_under_current_dir, exPlanner2, mkLocal]

/-! ## Claim C7 — fingerprint invariance -/

/-- C7 (counterexample): set equality of the backslash-normalised manifests
does not suffice for fingerprint equality.  The two-entry manifest
`{a\b ↦ 1, a/b ↦ 1}` (distinct dict keys) normalises to the same SET of
pairs as the one-entry manifest `{a/b ↦ 1}`, yet `hash_paths` feeds two
entries to the digest in the first case and one in the second. -/
theorem hash_paths_set_equality_insufficient :
    ((([("a\\b", 1), ("a/b", 1)] : List (String × ℕ)).map normPair).toFinset
      = (([("a/b", 1)] : List (String × ℕ)).map normPair).toFinset)
    ∧ (([("a\\b", 1), ("a/b", 1)] : List (String × ℕ)).map Prod.fst).Nodup
    ∧ ((([("a/b", 1)] : List (String × ℕ)).map Prod.fst).Nodup)
    ∧ TorrentStore.hash_paths [("a\\b", 1), ("a/b", 1)]
        ≠ TorrentStore.hash_paths [("a/b", 1)] := by decide

/-! ## Order lemmas for the fingerprint sort -/

lemma lexLeb_total : ∀ a b : List ℕ, lexLeb a b = true ∨ lexLeb b a = true := by
  intro a
  induction a with
  | nil => intro b; left; rfl
  | cons x xs ih =>
    intro b
    cases b with
    | nil => right; rfl
    | cons y ys =>
      rcases Nat.lt_trichotomy x y with hxy | rfl | hyx
      · left; simp only [lexLeb]; rw [if_pos hxy]
      · rcases ih ys with h | h
        · left; simp only [lexLeb]
          rw [if_neg (lt_irrefl x), if_neg (lt_irrefl x)]; exact h
        · right; simp only [lexLeb]
          rw [if_neg (lt_irrefl x), if_neg (lt_irrefl x)]; exact h
      · right; simp only [lexLeb]; rw [if_pos hyx]

lemma lexLeb_trans :
    ∀ a b c : List ℕ, lexLeb a b = true → lexLeb b c = true → lexLeb a c = true := by
  intro a
  induction a with
  | nil => intro b c _ _; rfl
  | cons x xs ih =>
    intro b c hab hbc
    cases b with
    | nil => simp [lexLeb] at hab
    | cons y ys =>
      cases c with
      | nil => simp [lexLeb] at hbc
      | cons z zs =>
        simp only [lexLeb] at hab hbc ⊢
        rcases Nat.lt_trichotomy x y with hxy | rfl | hyx
        · rcases Nat.lt_trichotomy y z with hyz | rfl | hzy
          · rw [if_pos (Nat.lt_trans hxy hyz)]
          · rw [if_pos hxy]
          · rw [if_neg (by omega), if_pos hzy] at hbc; cases hbc
        · rw [if_neg (lt_irrefl x), if_neg (lt_irrefl x)] at hab
          rcases Nat.lt_trichotomy x z with hxz | rfl | hzx
          · rw [if_pos hxz]
          · rw [if_neg (lt_irrefl x), if_neg (lt_irrefl x)] at hbc ⊢
            exact ih ys zs hab hbc
          · rw [if_neg (by omega), if_pos hzx] at hbc; cases hbc
        · rw [if_neg (by omega), if_pos hyx] at hab; cases hab

lemma lexLeb_antisymm :
    ∀ a b : List ℕ, lexLeb a b = true → lexLeb b a = true → a = b := by
  intro a
  induction a with
  | nil =>
    intro b _ hba
    cases b with
    | nil => rfl
    | cons y ys => simp [lexLeb] at hba
  | cons x xs ih =>
    intro b hab hba
    cases b with
    | nil => simp [lexLeb] at hab
    | cons y ys =>
      simp only [lexLeb] at hab hba
      rcases Nat.lt_trichotomy x y with hxy | rfl | hyx
      · rw [if_neg (by omega), if_pos hxy] at hba; cases hba
      · rw [if_neg (lt_irrefl x), if_neg (lt_irrefl x)] at hab hba
        rw [ih ys hab hba]
      · rw [if_neg (by omega), if_pos hyx] at hab; cases hab

instance : IsTotal (List ℕ) (fun a b => lexLeb a b = true) := ⟨lexLeb_total⟩

instance : IsTrans (List ℕ) (fun a b => lexLeb a b = true) := ⟨lexLeb_trans⟩

instance : IsAntisymm (List ℕ) (fun a b => lexLeb a b = true) := ⟨lexLeb_antisymm⟩

/-! ## Claim C7 (amended) — fingerprint invariance -/

/-- C7 as the code satisfies it: `hash_paths` is invariant under
permutation of the manifest entries and under path-separator convention —
two manifests whose backslash-normalised `(path, size)` MULTISETS agree
produce the same fingerprint (multiset, not set: normalisation may
collapse two distinct entries of one manifest, see the counterexample). -/
theorem hash_paths_perm_invariant (l1 l2 : List (String × ℕ))
    (h : (l1.map normPair).Perm (l2.map normPair)) :
    TorrentStore.hash_paths l1 = TorrentStore.hash_paths l2 := by
  have h1 : ∀ l : List (String × ℕ), l.map pathEntry = (l.map normPair).map normEntry := by
    intro l; rw [List.map_map]; rfl
  have hmap : (l1.map pathEntry).Perm (l2.map pathEntry) := by
    rw [h1 l1, h1 l2]
    exact h.map normEntry
  unfold TorrentStore.hash_paths
  congr 1
  exact List.eq_of_perm_of_sorted
    ((List.perm_insertionSort _ _).trans (hmap.trans (List.perm_insertionSort _ _).symm))
    (List.sorted_insertionSort _ _) (List.sorted_insertionSort _ _)

/-- Witness for `hash_paths_perm_invariant`: reordered entries and a
backslash-vs-slash path spelling still fingerprint identically. -/
theorem hash_paths_perm_invariant_witness :
    ((([("x", 2), ("a\\b", 1)] : List (String × ℕ)).map normPair).Perm
      (([("a/b", 1), ("x", 2)] : List (String × ℕ)).map normPair))
    ∧ TorrentStore.hash_paths [("x", 2), ("a\\b", 1)]
      = TorrentStore.hash_paths [("a/b", 1), ("x", 2)] :=
  ⟨by decide, hash_paths_perm_invariant _ _ (by decide)⟩

/-! ## Claim C10 — missing partition directory -/

lemma buildRemovableHashes_error (cfgs : List PlannerConfig)
    (locals : List (String × List (LocalTorrent × ℚ))) (rh0 : List (String × ℚ)) :
    (∃ c ∈ cfgs, dictGet locals c.download_dir = none) →
    ∃ e, buildRemovableHashes cfgs locals rh0 = Except.error e := by
  induction cfgs generalizing rh0 with
  | nil => rintro ⟨c, hc, _⟩; cases hc
  | cons c0 rest ih =>
    rintro ⟨c, hc, hnone⟩
    cases hget : dictGet locals c0.download_dir with
    | none => exact ⟨_, by rw [buildRemovableHashes, hget]⟩
    | some lst =>
      rcases List.mem_cons.mp hc with rfl | hc'
      · rw [hget] at hnone; cases hnone
      · obtain ⟨e, he⟩ := ih _ ⟨c, hc', hnone⟩
        exact ⟨e, by rw [buildRemovableHashes, hget]; exact he⟩

/-- C10: if some configured partition's download directory groups no held
item (no entry in the per-directory lists built by
`Planner.merge_torrent_info`), then `Planner.plan` fails with the
`KeyError` raised at `byre/planning.py:154` instead of treating the
partition as empty. -/
theorem plan_keyerror_on_itemless_partition (p : Planner) (path_hash : LocalTorrent → String)
    (disk_free : String → ℚ) (scored_local : List (LocalTorrent × ℚ))
    (remote : List (TorrentInfo × ℚ)) (ex : Bool) (config : PlannerConfig)
    (hc : config ∈ p.configs)
    (hnone : dictGet (p.merge_torrent_info path_hash scored_local).2.1 config.download_dir
      = none) :
    ∃ e, p.plan path_hash disk_free scored_local remote ex = Except.error e := by
  obtain ⟨e, he⟩ := buildRemovableHashes_error p.configs
    (p.merge_torrent_info path_hash scored_local).2.1 [] ⟨config, hc, hnone⟩
  refine ⟨e, ?_⟩
  rw [Planner.plan]
  rw [he]

/-- A planner over directory `e`, in which no held item lives. -/
def exPlannerE : Planner :=
  ⟨[{ max_total_size := 100, max_download_size := 1000, download_dir := "e" }]⟩

/-- Witness for `plan_keyerror_on_itemless_partition`: a partition rooted at
`"e"` holds no item, and planning errors out. -/
theorem plan_keyerror_on_itemless_partition_witness :
    (({ max_total_size := 100, max_download_size := 1000, download_dir := "e" }
        : PlannerConfig) ∈ exPlannerE.configs)
    ∧ (dictGet (exPlannerE.merge_torrent_info (fun t => t.torrent.hash)
        [(mkLocal "a" 5 "d", 1)]).2.1 "e" = none)
    ∧ ∃ e, exPlannerE.plan (fun t => t.torrent.hash) (fun _ => 100)
        [(mkLocal "a" 5 "d", 1)] [(mkInfo "x" 10, 1)] false = Except.error e :=
  ⟨by simp [exPlannerE],
    by simp [Planner.merge_torrent_info, mergeStep, exPlannerE, mkLocal,
      PlannerConfig.is_under_current_dir, dictGet],
    plan_keyerror_on_itemless_partition exPlannerE _ _ _ _ _
      { max_total_size := 100, max_download_size := 1000, download_dir := "e" }
      (by simp [exPlannerE])
      (by simp [Planner.merge_torrent_info, mergeStep, exPlannerE, mkLocal,
        PlannerConfig.is_under_current_dir, dictGet])⟩

/-! ## Claim C5 (amended) — global first-occurrence dedup accounting -/

lemma merge_total_aux (configs : List PlannerConfig) (ph : LocalTorrent → String) :
    ∀ (sl : List (LocalTorrent × ℚ)) (total : List (String × ℚ))
      (locals : List (String × List (LocalTorrent × ℚ)))
      (pt : List (String × List LocalTorrent)) (seen : List String) (dir : String),
      (∀ s, (dictGet pt s).isSome ↔ s ∈ seen) →
      dictGetD (sl.foldl (mergeStep configs ph) (total, locals, pt)).1 dir 0
        = dictGetD total dir 0 + dedupUsedBytes ph dir (assignedSeq configs sl) seen := by
  intro sl
  induction sl with
  | nil =>
    intro total locals pt seen dir hinv
    simp [assignedSeq, dedupUsedBytes]
  | cons ts rest ih =>
    intro total locals pt seen dir hinv
    rw [List.foldl_cons]
    cases hfind : configs.find? (fun c => c.is_under_current_dir ts.1) with
    | none =>
      have hstep : mergeStep configs ph (total, locals, pt) ts = (total, locals, pt) := by
        simp [mergeStep, hfind]
      have hseq : assignedSeq configs (ts :: rest) = assignedSeq configs rest := by
        simp [assignedSeq, hfind]
      rw [hstep, hseq]
      exact ih total locals pt seen dir hinv
    | some config =>
      have hseq : assignedSeq configs (ts :: rest)
          = (ts.1, config.download_dir) :: assignedSeq configs rest := by
        simp [assignedSeq, hfind]
      rw [hseq]
      cases hpt : dictGet pt (ph ts.1) with
      | some same =>
        have hstep : mergeStep configs ph (total, locals, pt) ts
            = (total,
                dictSet locals config.download_dir
                  (dictGetD locals config.download_dir [] ++ [ts]),
                dictSet pt (ph ts.1) (same ++ [ts.1])) := by
          simp [mergeStep, hfind, hpt]
        have hseen : ph ts.1 ∈ seen := (hinv (ph ts.1)).mp (by simp [hpt])
        have hinv' : ∀ s,
            (dictGet (dictSet pt (ph ts.1) (same ++ [ts.1])) s).isSome ↔ s ∈ seen := by
          intro s
          rw [dictGet_dictSet]
          by_cases h : ph ts.1 = s
          · subst h; simp [hseen]
          · rw [if_neg h]; exact hinv s
        rw [hstep, dedupUsedBytes, if_pos hseen]
        exact ih total _ _ seen dir hinv'
      | none =>
        have hnotseen : ph ts.1 ∉ seen := by
          intro h
          have := (hinv (ph ts.1)).mpr h
          rw [hpt] at this
          cases this
        have hinv' : ∀ s,
            (dictGet (dictSet pt (ph ts.1) [ts.1]) s).isSome ↔ s ∈ ph ts.1 :: seen := by
          intro s
          rw [dictGet_dictSet]
          by_cases h : ph ts.1 = s
          · subst h; simp
          · rw [if_neg h]
            simp only [List.mem_cons]
            rw [hinv s]
            constructor
            · exact Or.inr
            · rintro (rfl | hs)
              · exact absurd rfl h
              · exact hs
        rw [dedupUsedBytes, if_neg hnotseen]
        cases htot : dictGet total config.download_dir with
        | some v =>
          have hstep : mergeStep configs ph (total, locals, pt) ts
              = (dictSet total config.download_dir (v + ts.1.torrent.size),
                  dictSet locals config.download_dir
                    (dictGetD locals config.download_dir [] ++ [ts]),
                  dictSet pt (ph ts.1) [ts.1]) := by
            simp [mergeStep, hfind, hpt, htot]
          rw [hstep]
          rw [ih _ _ _ _ dir hinv']
          have htd : dictGetD (dictSet total config.download_dir (v + ts.1.torrent.size))
              dir 0 = dictGetD total dir 0
                + (if config.download_dir = dir then ts.1.torrent.size else 0) := by
            unfold dictGetD
            rw [dictGet_dictSet]
            by_cases h : config.download_dir = dir
            · subst h; rw [if_pos rfl, if_pos rfl, htot]
              simp [add_comm]
            · rw [if_neg h, if_neg h, add_zero]
          rw [htd, add_assoc]
        | none =>
          have hstep : mergeStep configs ph (total, locals, pt) ts
              = (dictSet total config.download_dir ts.1.torrent.size,
                  dictSet locals config.download_dir
                    (dictGetD locals config.download_dir [] ++ [ts]),
                  dictSet pt (ph ts.1) [ts.1]) := by
            simp [mergeStep, hfind, hpt, htot]
          rw [hstep]
          rw [ih _ _ _ _ dir hinv']
          have htd : dictGetD (dictSet total config.download_dir ts.1.torrent.size)
              dir 0 = dictGetD total dir 0
                + (if config.download_dir = dir then ts.1.torrent.size else 0) := by
            unfold dictGetD
            rw [dictGet_dictSet]
            by_cases h : config.download_dir = dir
            · subst h; rw [if_pos rfl, if_pos rfl, htot]
              simp
            · rw [if_neg h, if_neg h, add_zero]
          rw [htd, add_assoc]

/-- C5 as the code actually behaves: dedup accounting is GLOBAL, not
per-partition.  For every directory, the used-bytes total computed by
`Planner.merge_torrent_info` equals the first-occurrence sum: walking the
assigned items in order, an item whose fingerprint has been seen in ANY
partition contributes nothing, and a fresh-fingerprint item contributes
its size to its own partition.  (Within one partition this still gives
"a class's size counts once".) -/
theorem merge_used_bytes_global_dedup (p : Planner) (ph : LocalTorrent → String)
    (sl : List (LocalTorrent × ℚ)) (dir : String) :
    dictGetD (p.merge_torrent_info ph sl).1 dir 0
      = dedupUsedBytes ph dir (assignedSeq p.configs sl) [] := by
  have h := merge_total_aux p.configs ph sl [] [] [] [] dir (by intro s; simp [dictGet])
  simpa [Planner.merge_torrent_info, dictGetD, dictGet] using h

/-! ## The eviction scan: selected items -/

lemma dictGet_mem {κ α : Type} [DecidableEq κ] :
    ∀ (d : List (κ × α)) (k : κ) (v : α), dictGet d k = some v → (k, v) ∈ d := by
  intro d
  induction d with
  | nil => intro k v h; cases h
  | cons p rest ih =>
    intro k v h
    rw [dictGet] at h
    by_cases hk : p.1 = k
    · rw [if_pos hk] at h
      injection h with h'
      have hp : p = (k, v) := by rw [← hk, ← h']
      exact List.mem_cons.mpr (Or.inl hp.symm)
    · rw [if_neg hk] at h
      exact List.mem_cons_of_mem _ (ih k v h)

/-- Every item the scan loop of `try_download` selects satisfies the skip
guards: its own retain score is in `[0, score)`, none of its class-mates is
protected, and its class-adjusted score is below the candidate score. -/
lemma scanRemovable_commit_mem (rh : String → ℚ) (dups : String → List LocalTorrent)
    (score file_size remaining : ℚ) :
    ∀ (l : List (LocalTorrent × ℚ)) (j : ℕ) (rs : ℚ) (acc : List (LocalTorrent × ℚ))
      (j' : ℕ) (rs' : ℚ) (out : List (LocalTorrent × ℚ)),
      scanRemovable rh dups score file_size remaining l j rs acc
        = ScanResult.commit j' rs' out →
      ∀ x ∈ out, x ∈ acc ∨
        ∃ s, (x.1, s) ∈ l ∧ 0 ≤ s ∧ s < score ∧
          (∀ cm ∈ dups x.1.torrent.hash, 0 ≤ rh cm.torrent.hash) ∧ x.2 < score := by
  intro l
  induction l with
  | nil =>
    intro j rs acc j' rs' out h
    simp [scanRemovable] at h
  | cons hd tl ih =>
    rcases hd with ⟨torrent, torrent_score⟩
    intro j rs acc j' rs' out h x hx
    simp only [scanRemovable] at h
    by_cases h1 : score ≤ torrent_score ∨ torrent_score < 0
    · rw [if_pos h1] at h
      rcases ih _ _ _ _ _ _ h x hx with hacc | ⟨s, hs, hrest⟩
      · exact Or.inl hacc
      · exact Or.inr ⟨s, List.mem_cons_of_mem _ hs, hrest⟩
    · rw [if_neg h1] at h
      push_neg at h1
      by_cases h2 : (dups torrent.torrent.hash).any (fun t => rh t.torrent.hash < 0) = true
      · rw [if_pos h2] at h
        rcases ih _ _ _ _ _ _ h x hx with hacc | ⟨s, hs, hrest⟩
        · exact Or.inl hacc
        · exact Or.inr ⟨s, List.mem_cons_of_mem _ hs, hrest⟩
      · rw [if_neg h2] at h
        have hclass : ∀ cm ∈ dups torrent.torrent.hash, 0 ≤ rh cm.torrent.hash := by
          intro cm hcm
          by_contra hneg
          exact h2 (List.any_eq_true.mpr ⟨cm, hcm, decide_eq_true (not_le.mp hneg)⟩)
        by_cases h3 : score ≤ torrent_score
            + ((dups torrent.torrent.hash).map (fun t => rh t.torrent.hash)).sum
        · rw [if_pos h3] at h; cases h
        · rw [if_neg h3] at h
          have hhead : ∀ y, y = (torrent, torrent_score
              + ((dups torrent.torrent.hash).map (fun t => rh t.torrent.hash)).sum) →
              ∃ s, (y.1, s) ∈ (torrent, torrent_score) :: tl ∧ 0 ≤ s ∧ s < score ∧
                (∀ cm ∈ dups y.1.torrent.hash, 0 ≤ rh cm.torrent.hash) ∧ y.2 < score := by
            rintro y rfl
            exact ⟨torrent_score, List.mem_cons_self _ _, h1.2, h1.1, hclass, not_le.mp h3⟩
          by_cases h4 : file_size < rs + torrent.torrent.size + remaining
          · rw [if_pos h4] at h
            injection h with hj hrs hout
            rw [← hout] at hx
            rcases List.mem_append.mp hx with hacc | hnew
            · exact Or.inl hacc
            · exact Or.inr (hhead x (List.mem_singleton.mp hnew))
          · rw [if_neg h4] at h
            rcases ih _ _ _ _ _ _ h x hx with hacc' | ⟨s, hs, hrest⟩
            · rcases List.mem_append.mp hacc' with hacc | hnew
              · exact Or.inl hacc
              · exact Or.inr (hhead x (List.mem_singleton.mp hnew))
            · exact Or.inr ⟨s, List.mem_cons_of_mem _ hs, hrest⟩

/-- A candidate offered with score `0` is rejected (`byre/planning.py:102`). -/
lemma try_download_score_zero (md : ℚ) (sl : List (LocalTorrent × ℚ)) (rh : String → ℚ)
    (dups : String → List LocalTorrent) (c : TorrentInfo) (ex : Bool) (st : TryState) :
    (try_download md sl rh dups c 0 ex st).1 = none := by
  unfold try_download
  by_cases h1 : md < st.downloaded + c.file_size
  · rw [if_pos h1]
  · rw [if_neg h1, if_pos rfl]

/-- Every item in a committed eviction offer of `try_download` was drawn
from the partition's scored list and satisfies the skip guards. -/
lemma try_download_commit_mem (md : ℚ) (sl : List (LocalTorrent × ℚ)) (rh : String → ℚ)
    (dups : String → List LocalTorrent) (c : TorrentInfo) (score : ℚ) (ex : Bool)
    (st : TryState) (v : ℚ) (rm : List (LocalTorrent × ℚ)) (st' : TryState)
    (h : try_download md sl rh dups c score ex st = (some (v, rm), st')) :
    ∀ x ∈ rm, ∃ s, (x.1, s) ∈ sl ∧ 0 ≤ s ∧ s < score ∧
      (∀ cm ∈ dups x.1.torrent.hash, 0 ≤ rh cm.torrent.hash) ∧ x.2 < score := by
  unfold try_download at h
  by_cases h1 : md < st.downloaded + c.file_size
  · rw [if_pos h1] at h; simp at h
  · rw [if_neg h1] at h
    by_cases h2 : score = 0
    · rw [if_pos h2] at h; simp at h
    · rw [if_neg h2] at h
      by_cases h3 : c.file_size < st.self_remaining ∨ ex = true
      · rw [if_pos h3] at h
        by_cases hex : ex = true
        · rw [if_pos hex] at h
          simp only [Prod.mk.injEq, Option.some.injEq] at h
          obtain ⟨⟨hv, hrm⟩, hst⟩ := h
          subst hrm
          intro x hx; cases hx
        · rw [if_neg hex] at h
          simp only [Prod.mk.injEq, Option.some.injEq] at h
          obtain ⟨⟨hv, hrm⟩, hst⟩ := h
          subst hrm
          intro x hx; cases hx
      · rw [if_neg h3] at h
        cases hscan : scanRemovable rh dups score c.file_size st.remaining
            (sl.drop st.i) 0 0 [] with
        | fail => rw [hscan] at h; simp at h
        | commit j rs out =>
          rw [hscan] at h
          simp only [Prod.mk.injEq, Option.some.injEq] at h
          obtain ⟨⟨hv, hrm⟩, hst⟩ := h
          subst hrm
          intro x hx
          rcases scanRemovable_commit_mem rh dups score c.file_size st.remaining
              _ _ _ _ _ _ _ hscan x hx with hacc | ⟨s, hs, hrest⟩
          · cases hacc
          · exact ⟨s, List.drop_subset _ _ hs, hrest⟩

/-! ## Claim C2 (amended) — the per-item exchange rule -/

/-- C2 as the code satisfies it: the exchange comparison is per item, not
cumulative.  (1) Every item in a committed eviction offer has sacrificed
value — its own retain score plus its class-mates' scores — strictly below
the candidate's acquire score; (2) the scan abandons the partition as soon
as it inspects a single eligible item whose class-adjusted score reaches or
exceeds the candidate score.  No cumulative total over distinct selected
items is compared (see `sacrificed_value_not_cumulative`). -/
theorem sacrificed_value_per_item (md : ℚ) (sl : List (LocalTorrent × ℚ)) (rh : String → ℚ)
    (dups : String → List LocalTorrent) (c : TorrentInfo) (score : ℚ) (ex : Bool)
    (st : TryState) :
    (∀ v rm st', try_download md sl rh dups c score ex st = (some (v, rm), st') →
      ∀ x ∈ rm, x.2 < score)
    ∧ (∀ (torrent : LocalTorrent) (ts fs rem rs : ℚ) (rest : List (LocalTorrent × ℚ))
        (j : ℕ) (acc : List (LocalTorrent × ℚ)),
        ts < score → 0 ≤ ts →
        (∀ cm ∈ dups torrent.torrent.hash, 0 ≤ rh cm.torrent.hash) →
        score ≤ ts + ((dups torrent.torrent.hash).map (fun t => rh t.torrent.hash)).sum →
        scanRemovable rh dups score fs rem ((torrent, ts) :: rest) j rs acc
          = ScanResult.fail) := by
  constructor
  · intro v rm st' h x hx
    obtain ⟨s, hmem, h0, hlt, hcl, hx2⟩ :=
      try_download_commit_mem md sl rh dups c score ex st v rm st' h x hx
    exact hx2
  · intro torrent ts fs rem rs rest j acc hlt hnn hclass hsum
    simp only [scanRemovable]
    rw [if_neg (by push_neg; exact ⟨hlt, hnn⟩)]
    rw [if_neg (by
      intro hany
      obtain ⟨cm, hcm, hc⟩ := List.any_eq_true.mp hany
      exact absurd (of_decide_eq_true hc) (not_lt.mpr (hclass cm hcm)))]
    rw [if_pos hsum]

/-- Witness for `sacrificed_value_per_item`: a committed offer whose items
all score below the candidate, and a scan abandoned on a single item whose
class-mate pushes it to the candidate's score. -/
theorem sacrificed_value_per_item_witness :
    (∀ x ∈ [((mkLocal "a" 10 "d", (0.4 : ℚ))), (mkLocal "b" 10 "d", 0.4),
        (mkLocal "c" 10 "d", 0.4)], x.2 < (1 : ℚ))
    ∧ scanRemovable (fun _ => 0.6) (fun _ => [mkLocal "cm" 10 "d"]) 1 25 0
        [(mkLocal "t" 10 "d", 0.5)] 0 0 [] = ScanResult.fail :=
  ⟨(sacrificed_value_per_item 1000 exHeldB (fun _ => 0.4) (fun _ => [])
      (mkInfo "x" 25) 1 false ⟨0, 0, 0, 0⟩).1 25
      [(mkLocal "a" 10 "d", 0.4), (mkLocal "b" 10 "d", 0.4), (mkLocal "c" 10 "d", 0.4)]
      ⟨25, 3, 5, 0⟩ (by norm_num [try_download, scanRemovable, exHeldB, mkLocal, mkInfo]),
    (sacrificed_value_per_item 1000 [] (fun _ => 0.6) (fun _ => [mkLocal "cm" 10 "d"])
      (mkInfo "x" 25) 1 false ⟨0, 0, 0, 0⟩).2 (mkLocal "t" 10 "d") 0.5 25 0 0 [] 0 []
      (by norm_num) (by norm_num) (by intro cm _; norm_num)
      (by norm_num [mkLocal])⟩

/-! ## The candidate loop of `Planner.plan`: invariants -/

lemma chooseMin_mem {α : Type} :
    ∀ (l : List ((ℚ × ℚ × String) × α)) (y : (ℚ × ℚ × String) × α),
      chooseMin l = some y → y ∈ l := by
  have aux : ∀ (xs : List ((ℚ × ℚ × String) × α)) (x : (ℚ × ℚ × String) × α),
      (xs.foldl (fun best z => if planKeyLt z.1 best.1 then z else best) x) ∈ x :: xs := by
    intro xs
    induction xs with
    | nil => intro x; exact List.mem_cons_self _ _
    | cons z zs ih =>
      intro x
      rw [List.foldl_cons]
      rcases List.mem_cons.mp (ih (if planKeyLt z.1 x.1 then z else x)) with h | h
      · rw [h]
        by_cases hc : planKeyLt z.1 x.1 = true
        · rw [if_pos hc]; exact List.mem_cons_of_mem _ (List.mem_cons_self _ _)
        · rw [if_neg hc]; exact List.mem_cons_self _ _
      · exact List.mem_cons_of_mem _ (List.mem_cons_of_mem _ h)
  intro l y h
  cases l with
  | nil => cases h
  | cons x xs =>
    rw [chooseMin] at h
    injection h with h'
    rw [← h']
    exact aux xs x

/-- Invariant of the per-candidate inner fold (one `try_download` call per
config): scored lists satisfying `P` stay fixed, and every recorded offer
draws its eviction items from a `P`-satisfying scored list with the scan's
skip guards, for a candidate of nonzero score. -/
lemma planPartStep_fold_inv (rh : String → ℚ) (dups : String → List LocalTorrent) (ex : Bool)
    (cs : TorrentInfo × ℚ) (P : LocalTorrent × ℚ → Prop) :
    ∀ (configs : List PlannerConfig) (pps : List (String × PartPlanner))
      (plans : List (String × (ℚ × List (LocalTorrent × ℚ)))),
      (∀ e ∈ pps, ∀ x ∈ e.2.scored_local, P x) →
      (∀ q ∈ plans, cs.2 ≠ 0 ∧ ∀ x ∈ q.2.2,
        ∃ s, P (x.1, s) ∧ 0 ≤ s ∧ (∀ cm ∈ dups x.1.torrent.hash, 0 ≤ rh cm.torrent.hash)) →
      (∀ e ∈ (configs.foldl (planPartStep rh dups ex cs) (pps, plans)).1,
        ∀ x ∈ e.2.scored_local, P x)
      ∧ (∀ q ∈ (configs.foldl (planPartStep rh dups ex cs) (pps, plans)).2,
        cs.2 ≠ 0 ∧ ∀ x ∈ q.2.2,
          ∃ s, P (x.1, s) ∧ 0 ≤ s ∧ (∀ cm ∈ dups x.1.torrent.hash, 0 ≤ rh cm.torrent.hash)) := by
  intro configs
  induction configs with
  | nil => intro pps plans h1 h2; exact ⟨h1, h2⟩
  | cons config rest ih =>
    intro pps plans h1 h2
    rw [List.foldl_cons]
    cases hget : dictGet pps config.download_dir with
    | none =>
      rw [show planPartStep rh dups ex cs (pps, plans) config = (pps, plans) by
        simp [planPartStep, hget]]
      exact ih pps plans h1 h2
    | some pp =>
      have hpp : ∀ x ∈ pp.scored_local, P x := h1 _ (dictGet_mem pps _ pp hget)
      have hpres : ∀ e ∈ dictSet pps config.download_dir
          { pp with st := (try_download pp.max_download_size pp.scored_local rh dups
              cs.1 cs.2 ex pp.st).2 },
          ∀ x ∈ e.2.scored_local, P x := by
        intro e he x hx
        rcases mem_dictSet _ _ _ e he with rfl | hmem
        · exact hpp x hx
        · exact h1 e hmem x hx
      cases hr : (try_download pp.max_download_size pp.scored_local rh dups
          cs.1 cs.2 ex pp.st).1 with
      | none =>
        rw [show planPartStep rh dups ex cs (pps, plans) config
            = (dictSet pps config.download_dir
                { pp with st := (try_download pp.max_download_size pp.scored_local rh dups
                    cs.1 cs.2 ex pp.st).2 }, plans) by
          simp [planPartStep, hget, hr]]
        exact ih _ plans hpres h2
      | some pl =>
        have hne : cs.2 ≠ 0 := by
          intro h0
          rw [h0] at hr
          rw [try_download_score_zero] at hr
          cases hr
        have heq : try_download pp.max_download_size pp.scored_local rh dups cs.1 cs.2 ex pp.st
            = (some pl, (try_download pp.max_download_size pp.scored_local rh dups
                cs.1 cs.2 ex pp.st).2) := by
          rw [← hr]
        have hrm : ∀ x ∈ pl.2, ∃ s, P (x.1, s) ∧ 0 ≤ s ∧
            (∀ cm ∈ dups x.1.torrent.hash, 0 ≤ rh cm.torrent.hash) := by
          intro x hx
          obtain ⟨s, hmem, h0, hlt, hcl, hx2⟩ :=
            try_download_commit_mem pp.max_download_size pp.scored_local rh dups cs.1 cs.2
              ex pp.st pl.1 pl.2 _ heq x hx
          exact ⟨s, hpp _ hmem, h0, hcl⟩
        rw [show planPartStep rh dups ex cs (pps, plans) config
            = (dictSet pps config.download_dir
                { pp with st := (try_download pp.max_download_size pp.scored_local rh dups
                    cs.1 cs.2 ex pp.st).2 },
               dictSet plans config.download_dir pl) by
          simp [planPartStep, hget, hr]]
        apply ih _ _ hpres
        intro q hq
        rcases mem_dictSet _ _ _ q hq with rfl | hmem
        · exact ⟨hne, hrm⟩
        · exact h2 q hmem

/-- Invariant of the per-run candidate fold of `Planner.plan`: every item
added to the eviction list comes from a `P`-satisfying scored pair passing
the skip guards, and every item added to the acquisition list is a remote
candidate of nonzero score. -/
lemma planStep_fold_inv (configs : List PlannerConfig) (rh : String → ℚ)
    (dups : String → List LocalTorrent) (ex : Bool) (P : LocalTorrent × ℚ → Prop) :
    ∀ (remote : List (TorrentInfo × ℚ))
      (acc : List (LocalTorrent × String) × List (TorrentInfo × String)
        × List (String × PartPlanner)),
      (∀ e ∈ acc.2.2, ∀ x ∈ e.2.scored_local, P x) →
      (∀ x ∈ (remote.foldl (planStep configs rh dups ex) acc).1,
          x ∈ acc.1 ∨ ∃ s, P (x.1, s) ∧ 0 ≤ s ∧
            (∀ cm ∈ dups x.1.torrent.hash, 0 ≤ rh cm.torrent.hash))
      ∧ (∀ y ∈ (remote.foldl (planStep configs rh dups ex) acc).2.1,
          y ∈ acc.2.1 ∨ ∃ s, (y.1, s) ∈ remote ∧ s ≠ 0) := by
  intro remote
  induction remote with
  | nil => intro acc hacc; exact ⟨fun x hx => Or.inl hx, fun y hy => Or.inl hy⟩
  | cons cs rest ih =>
    intro acc hacc
    rw [List.foldl_cons]
    obtain ⟨hpps', hplans'⟩ := planPartStep_fold_inv rh dups ex cs P configs acc.2.2 []
      hacc (by intro q hq; cases hq)
    cases hmin : chooseMin (((configs.foldl (planPartStep rh dups ex cs) (acc.2.2, [])).2).map
        (fun dp => ((dp.2.1, ((dp.2.2.map (fun y => y.2)).sum), dp.1), dp))) with
    | none =>
      rw [show planStep configs rh dups ex acc cs
          = (acc.1, acc.2.1, (configs.foldl (planPartStep rh dups ex cs) (acc.2.2, [])).1) by
        simp [planStep, hmin]]
      obtain ⟨ha, hb⟩ := ih (acc.1, acc.2.1,
        (configs.foldl (planPartStep rh dups ex cs) (acc.2.2, [])).1) hpps'
      constructor
      · intro x hx
        rcases ha x hx with h | h
        · exact Or.inl h
        · exact Or.inr h
      · intro y hy
        rcases hb y hy with h | ⟨s, hs, hs0⟩
        · exact Or.inl h
        · exact Or.inr ⟨s, List.mem_cons_of_mem _ hs, hs0⟩
    | some ky =>
      rcases ky with ⟨key, dir, pl⟩
      rw [show planStep configs rh dups ex acc cs
          = (acc.1 ++ pl.2.map (fun t => (t.1, dir)),
             acc.2.1 ++ [(cs.1, dir)],
             (configs.foldl (planPartStep rh dups ex cs) (acc.2.2, [])).1) by
        simp [planStep, hmin]]
      obtain ⟨dp, hdp, hdpe⟩ := List.mem_map.mp (chooseMin_mem _ _ hmin)
      have hdp2 : dp = (dir, pl) := congrArg Prod.snd hdpe
      rw [hdp2] at hdp
      obtain ⟨hne, hq⟩ := hplans' (dir, pl) hdp
      obtain ⟨ha, hb⟩ := ih (acc.1 ++ pl.2.map (fun t => (t.1, dir)),
        acc.2.1 ++ [(cs.1, dir)],
        (configs.foldl (planPartStep rh dups ex cs) (acc.2.2, [])).1) hpps'
      constructor
      · intro x hx
        rcases ha x hx with h | h
        · rcases List.mem_append.mp h with h' | h'
          · exact Or.inl h'
          · obtain ⟨t, ht, rfl⟩ := List.mem_map.mp h'
            obtain ⟨s, hP, h0, hcl⟩ := hq t ht
            exact Or.inr ⟨s, hP, h0, hcl⟩
        · exact Or.inr h
      · intro y hy
        rcases hb y hy with h | ⟨s, hs, hs0⟩
        · rcases List.mem_append.mp h with h' | h'
          · exact Or.inl h'
          · rw [List.mem_singleton] at h'
            subst h'
            exact Or.inr ⟨cs.2, List.mem_cons_self _ _, hne⟩
        · exact Or.inr ⟨s, List.mem_cons_of_mem _ hs, hs0⟩

/-! ## Entries of the per-directory lists come from the input -/

lemma merge_locals_mem (configs : List PlannerConfig) (ph : LocalTorrent → String)
    (R : LocalTorrent × ℚ → Prop) :
    ∀ (sl : List (LocalTorrent × ℚ)) (total : List (String × ℚ))
      (locals : List (String × List (LocalTorrent × ℚ)))
      (pt : List (String × List LocalTorrent)),
      (∀ dir lst, dictGet locals dir = some lst → ∀ x ∈ lst, R x) →
      (∀ ts ∈ sl, R ts) →
      ∀ dir lst,
        dictGet (sl.foldl (mergeStep configs ph) (total, locals, pt)).2.1 dir = some lst →
        ∀ x ∈ lst, R x := by
  intro sl
  induction sl with
  | nil => intro total locals pt hloc hsl dir lst hget x hx; exact hloc dir lst hget x hx
  | cons ts rest ih =>
    intro total locals pt hloc hsl dir lst hget x hx
    rw [List.foldl_cons] at hget
    have hsl' : ∀ t ∈ rest, R t := fun t ht => hsl t (List.mem_cons_of_mem _ ht)
    cases hfind : configs.find? (fun c => c.is_under_current_dir ts.1) with
    | none =>
      rw [show mergeStep configs ph (total, locals, pt) ts = (total, locals, pt) by
        simp [mergeStep, hfind]] at hget
      exact ih total locals pt hloc hsl' dir lst hget x hx
    | some config =>
      have hloc' : ∀ dir' lst', dictGet (dictSet locals config.download_dir
          (dictGetD locals config.download_dir [] ++ [ts])) dir' = some lst' →
          ∀ x' ∈ lst', R x' := by
        intro dir' lst' hget' x' hx'
        rw [dictGet_dictSet] at hget'
        by_cases hd : config.download_dir = dir'
        · rw [if_pos hd] at hget'
          injection hget' with h'
          rw [← h'] at hx'
          rcases List.mem_append.mp hx' with hold | hnew
          · unfold dictGetD at hold
            cases hg : dictGet locals config.download_dir with
            | none => rw [hg] at hold; cases hold
            | some l0 =>
              rw [hg] at hold
              exact hloc _ l0 hg x' hold
          · rw [List.mem_singleton] at hnew
            rw [hnew]
            exact hsl ts (List.mem_cons_self _ _)
        · rw [if_neg hd] at hget'
          exact hloc dir' lst' hget' x' hx'
      cases hpt : dictGet pt (ph ts.1) with
      | some same =>
        rw [show mergeStep configs ph (total, locals, pt) ts
            = (total,
                dictSet locals config.download_dir
                  (dictGetD locals config.download_dir [] ++ [ts]),
                dictSet pt (ph ts.1) (same ++ [ts.1])) by
          simp [mergeStep, hfind, hpt]] at hget
        exact ih _ _ _ hloc' hsl' dir lst hget x hx
      | none =>
        cases htot : dictGet total config.download_dir with
        | some v =>
          rw [show mergeStep configs ph (total, locals, pt) ts
              = (dictSet total config.download_dir (v + ts.1.torrent.size),
                  dictSet locals config.download_dir
                    (dictGetD locals config.download_dir [] ++ [ts]),
                  dictSet pt (ph ts.1) [ts.1]) by
            simp [mergeStep, hfind, hpt, htot]] at hget
          exact ih _ _ _ hloc' hsl' dir lst hget x hx
        | none =>
          rw [show mergeStep configs ph (total, locals, pt) ts
              = (dictSet total config.download_dir ts.1.torrent.size,
                  dictSet locals config.download_dir
                    (dictGetD locals config.download_dir [] ++ [ts]),
                  dictSet pt (ph ts.1) [ts.1]) by
            simp [mergeStep, hfind, hpt, htot]] at hget
          exact ih _ _ _ hloc' hsl' dir lst hget x hx

lemma merge_locals_sub (p : Planner) (ph : LocalTorrent → String)
    (sl : List (LocalTorrent × ℚ)) (dir : String) :
    ∀ x ∈ dictGetD (p.merge_torrent_info ph sl).2.1 dir [], x ∈ sl := by
  intro x hx
  unfold dictGetD at hx
  cases hget : dictGet (p.merge_torrent_info ph sl).2.1 dir with
  | none => rw [hget] at hx; cases hx
  | some lst =>
    rw [hget] at hx
    exact merge_locals_mem p.configs ph (fun t => t ∈ sl) sl [] [] []
      (by intro dir' lst' h; cases h) (fun t ht => ht) dir lst hget x hx

/-- Entries of the planner dicts built by `planInitStep` satisfy:
drawn from the per-directory lists and filtered to site `byr`. -/
lemma planInitStep_fold_inv (used_spaces : List (String × ℚ))
    (locals : List (String × List (LocalTorrent × ℚ))) (disk_free : String → ℚ)
    (Q : LocalTorrent × ℚ → Prop)
    (hQ : ∀ dir, ∀ x ∈ dictGetD locals dir [], Q x) :
    ∀ (configs : List PlannerConfig) (d0 : List (String × PartPlanner)),
      (∀ e ∈ d0, ∀ x ∈ e.2.scored_local, Q x ∧ x.1.site = "byr") →
      ∀ e ∈ configs.foldl (planInitStep used_spaces locals disk_free) d0,
        ∀ x ∈ e.2.scored_local, Q x ∧ x.1.site = "byr" := by
  intro configs
  induction configs with
  | nil => intro d0 h0; exact h0
  | cons config rest ih =>
    intro d0 h0
    rw [List.foldl_cons]
    apply ih
    intro e he x hx
    rcases mem_dictSet _ _ _ e he with rfl | hmem
    · have hx' := List.mem_filter.mp hx
      exact ⟨hQ config.download_dir x hx'.1, of_decide_eq_true hx'.2⟩
    · exact h0 e hmem x hx

/-! ## Claim C1 — the protection invariant -/

/-- C1: no protected held item, and no item with a protected class-mate,
is ever evicted.  For every successful run of `Planner.plan`, every item in
the returned eviction list (i) entered as a scored pair with retain score
`≥ 0` (items scored `-1` by `Scorer.score_uploading`, i.e. negative, are
skipped by the scan at `byre/planning.py:115`), and (ii) has no class-mate
whose score in the `removable_hashes` dict is negative
(`byre/planning.py:117`). -/
theorem protected_items_never_evicted (p : Planner) (path_hash : LocalTorrent → String)
    (disk_free : String → ℚ) (scored_local : List (LocalTorrent × ℚ))
    (remote : List (TorrentInfo × ℚ)) (ex : Bool)
    (rem : List (LocalTorrent × String)) (dl : List (TorrentInfo × String))
    (dups : List (String × List LocalTorrent))
    (h : p.plan path_hash disk_free scored_local remote ex = Except.ok (rem, dl, dups)) :
    ∃ rhd, buildRemovableHashes p.configs
        (p.merge_torrent_info path_hash scored_local).2.1 [] = Except.ok rhd
      ∧ ∀ x ∈ rem,
          (∃ s, (x.1, s) ∈ scored_local ∧ 0 ≤ s)
          ∧ ∀ cm ∈ dictGetD dups x.1.torrent.hash [],
              0 ≤ dictGetD rhd cm.torrent.hash 0 := by
  simp only [Planner.plan] at h
  cases hb : buildRemovableHashes p.configs
      (p.merge_torrent_info path_hash scored_local).2.1 [] with
  | error e => rw [hb] at h; cases h
  | ok rhd =>
    rw [hb] at h
    injection h with h'
    have hrem : (remote.foldl (planStep p.configs (fun h => dictGetD rhd h 0)
        (fun h => dictGetD (p.merge_torrent_info path_hash scored_local).2.2 h []) ex)
        ([], [], p.configs.foldl (planInitStep (p.merge_torrent_info path_hash scored_local).1
          (p.merge_torrent_info path_hash scored_local).2.1 disk_free) [])).1 = rem :=
      congrArg Prod.fst h'
    have hdups : (p.merge_torrent_info path_hash scored_local).2.2 = dups :=
      congrArg (fun z => z.2.2) h'
    refine ⟨rhd, rfl, ?_⟩
    intro x hx
    rw [← hrem] at hx
    have hinit : ∀ e ∈ p.configs.foldl
        (planInitStep (p.merge_torrent_info path_hash scored_local).1
          (p.merge_torrent_info path_hash scored_local).2.1 disk_free) [],
        ∀ y ∈ e.2.scored_local, (y : LocalTorrent × ℚ) ∈ scored_local := by
      intro e he y hy
      exact (planInitStep_fold_inv _ _ _ (fun t => t ∈ scored_local)
        (fun dir z hz => merge_locals_sub p path_hash scored_local dir z hz)
        p.configs [] (by intro e' he'; cases he') e he y hy).1
    obtain ⟨ha, _⟩ := planStep_fold_inv p.configs (fun h => dictGetD rhd h 0)
      (fun h => dictGetD (p.merge_torrent_info path_hash scored_local).2.2 h []) ex
      (fun t => t ∈ scored_local) remote
      ([], [], p.configs.foldl (planInitStep (p.merge_torrent_info path_hash scored_local).1
        (p.merge_torrent_info path_hash scored_local).2.1 disk_free) []) hinit
    rcases ha x hx with hnil | ⟨s, hP, h0, hcl⟩
    · cases hnil
    · rw [hdups] at hcl
      exact ⟨⟨s, hP, h0⟩, hcl⟩

/-- Witness for `protected_items_never_evicted`: a successful plan that
evicts two items. -/
theorem protected_items_never_evicted_witness :
    (exPlanner.plan (fun t => t.torrent.hash) (fun _ => 0) exHeldA
        [(mkInfo "x" 15, 1)] false
      = Except.ok ([(mkLocal "a" 10 "d", "d"), (mkLocal "b" 10 "d", "d")],
          [(mkInfo "x" 15, "d")], [("a", []), ("b", []), ("c", [])]))
    ∧ ∃ rhd, buildRemovableHashes exPlanner.configs
        (exPlanner.merge_torrent_info (fun t => t.torrent.hash) exHeldA).2.1 []
          = Except.ok rhd
      ∧ ∀ x ∈ [(mkLocal "a" 10 "d", "d"), (mkLocal "b" 10 "d", "d")],
          (∃ s, (x.1, s) ∈ exHeldA ∧ 0 ≤ s)
          ∧ ∀ cm ∈ dictGetD [("a", ([] : List LocalTorrent)), ("b", []), ("c", [])]
              x.1.torrent.hash [],
              0 ≤ dictGetD rhd cm.torrent.hash 0 :=
  have hplan : exPlanner.plan (fun t => t.torrent.hash) (fun _ => 0) exHeldA
      [(mkInfo "x" 15, 1)] false
      = Except.ok ([(mkLocal "a" 10 "d", "d"), (mkLocal "b" 10 "d", "d")],
          [(mkInfo "x" 15, "d")], [("a", []), ("b", []), ("c", [])]) := by
    simp +decide [Planner.plan, Planner.merge_torrent_info, mergeStep, buildRemovableHashes,
      planInitStep, planStep, planPartStep, try_download, scanRemovable, chooseMin,
      classDuplicates, dictGet, dictSet, dictGetD, PlannerConfig.clamp,
      PlannerConfig.is_under_current_dir, exPlanner, exHeldA, mkLocal, mkInfo]
    all_goals norm_num
  ⟨hplan, protected_items_never_evicted exPlanner _ _ exHeldA _ false _ _ _ hplan⟩

/-! ## Claim C9 — only `byr` items are evicted -/

/-- C9: every held item in the eviction list of a successful plan has site
`"byr"`: the per-partition scan operates on the scored list filtered to
`site == "byr"` (`byre/planning.py:93`), whatever the item's score or
size. -/
theorem evictions_only_site_byr (p : Planner) (path_hash : LocalTorrent → String)
    (disk_free : String → ℚ) (scored_local : List (LocalTorrent × ℚ))
    (remote : List (TorrentInfo × ℚ)) (ex : Bool)
    (rem : List (LocalTorrent × String)) (dl : List (TorrentInfo × String))
    (dups : List (String × List LocalTorrent))
    (h : p.plan path_hash disk_free scored_local remote ex = Except.ok (rem, dl, dups)) :
    ∀ x ∈ rem, x.1.site = "byr" := by
  simp only [Planner.plan] at h
  cases hb : buildRemovableHashes p.configs
      (p.merge_torrent_info path_hash scored_local).2.1 [] with
  | error e => rw [hb] at h; cases h
  | ok rhd =>
    rw [hb] at h
    injection h with h'
    have hrem : (remote.foldl (planStep p.configs (fun h => dictGetD rhd h 0)
        (fun h => dictGetD (p.merge_torrent_info path_hash scored_local).2.2 h []) ex)
        ([], [], p.configs.foldl (planInitStep (p.merge_torrent_info path_hash scored_local).1
          (p.merge_torrent_info path_hash scored_local).2.1 disk_free) [])).1 = rem :=
      congrArg Prod.fst h'
    intro x hx
    rw [← hrem] at hx
    have hinit : ∀ e ∈ p.configs.foldl
        (planInitStep (p.merge_torrent_info path_hash scored_local).1
          (p.merge_torrent_info path_hash scored_local).2.1 disk_free) [],
        ∀ y ∈ e.2.scored_local, (y : LocalTorrent × ℚ).1.site = "byr" := by
      intro e he y hy
      exact (planInitStep_fold_inv _ _ _ (fun t => t ∈ scored_local)
        (fun dir z hz => merge_locals_sub p path_hash scored_local dir z hz)
        p.configs [] (by intro e' he'; cases he') e he y hy).2
    obtain ⟨ha, _⟩ := planStep_fold_inv p.configs (fun h => dictGetD rhd h 0)
      (fun h => dictGetD (p.merge_torrent_info path_hash scored_local).2.2 h []) ex
      (fun t => t.1.site = "byr") remote
      ([], [], p.configs.foldl (planInitStep (p.merge_torrent_info path_hash scored_local).1
        (p.merge_torrent_info path_hash scored_local).2.1 disk_free) []) hinit
    rcases ha x hx with hnil | ⟨s, hP, _, _⟩
    · cases hnil
    · exact hP

/-- Witness for `evictions_only_site_byr`. -/
theorem evictions_only_site_byr_witness :
    (exPlanner.plan (fun t => t.torrent.hash) (fun _ => 0) exHeldA
        [(mkInfo "x" 15, 1)] false
      = Except.ok ([(mkLocal "a" 10 "d", "d"), (mkLocal "b" 10 "d", "d")],
          [(mkInfo "x" 15, "d")], [("a", []), ("b", []), ("c", [])]))
    ∧ ∀ x ∈ [(mkLocal "a" 10 "d", "d"), (mkLocal "b" 10 "d", "d")],
        (x : LocalTorrent × String).1.site = "byr" :=
  have hplan : exPlanner.plan (fun t => t.torrent.hash) (fun _ => 0) exHeldA
      [(mkInfo "x" 15, 1)] false
      = Except.ok ([(mkLocal "a" 10 "d", "d"), (mkLocal "b" 10 "d", "d")],
          [(mkInfo "x" 15, "d")], [("a", []), ("b", []), ("c", [])]) := by
    simp +decide [Planner.plan, Planner.merge_torrent_info, mergeStep, buildRemovableHashes,
      planInitStep, planStep, planPartStep, try_download, scanRemovable, chooseMin,
      classDuplicates, dictGet, dictSet, dictGetD, PlannerConfig.clamp,
      PlannerConfig.is_under_current_dir, exPlanner, exHeldA, mkLocal, mkInfo]
    all_goals norm_num
  ⟨hplan, evictions_only_site_byr exPlanner _ _ exHeldA _ false _ _ _ hplan⟩

/-! ## Claim C8 — zero-score candidates -/

/-- C8: `score_downloading` returns `0` whenever seeders or leechers are
`≤ 0`, and every candidate that reaches a plan's acquisition list entered
with a nonzero score (a score-0 offer is rejected by `try_download` at
`byre/planning.py:102`), so a zero-score candidate never appears in any
plan. -/
theorem zero_score_never_acquired :
    (∀ (s : Scorer) (exp : ℚ → ℚ) (t : TorrentInfo) (recovery : Bool),
      t.seeders ≤ 0 ∨ t.leechers ≤ 0 → s.score_downloading exp t recovery = 0)
    ∧ ∀ (p : Planner) (path_hash : LocalTorrent → String) (disk_free : String → ℚ)
        (scored_local : List (LocalTorrent × ℚ)) (remote : List (TorrentInfo × ℚ)) (ex : Bool)
        (rem : List (LocalTorrent × String)) (dl : List (TorrentInfo × String))
        (dups : List (String × List LocalTorrent)),
        p.plan path_hash disk_free scored_local remote ex = Except.ok (rem, dl, dups) →
        ∀ y ∈ dl, ∃ s, (y.1, s) ∈ remote ∧ s ≠ 0 := by
  constructor
  · rintro s exp t recovery (h | h)
    · rw [Scorer.score_downloading, if_pos h]
    · by_cases hs : t.seeders ≤ 0
      · rw [Scorer.score_downloading, if_pos hs]
      · rw [Scorer.score_downloading, if_neg hs, if_pos h]
  · intro p path_hash disk_free scored_local remote ex rem dl dups h
    simp only [Planner.plan] at h
    cases hb : buildRemovableHashes p.configs
        (p.merge_torrent_info path_hash scored_local).2.1 [] with
    | error e => rw [hb] at h; cases h
    | ok rhd =>
      rw [hb] at h
      injection h with h'
      have hdl : (remote.foldl (planStep p.configs (fun h => dictGetD rhd h 0)
          (fun h => dictGetD (p.merge_torrent_info path_hash scored_local).2.2 h []) ex)
          ([], [], p.configs.foldl
            (planInitStep (p.merge_torrent_info path_hash scored_local).1
              (p.merge_torrent_info path_hash scored_local).2.1 disk_free) [])).2.1 = dl :=
        congrArg (fun z => z.2.1) h'
      intro y hy
      rw [← hdl] at hy
      obtain ⟨_, hbdl⟩ := planStep_fold_inv p.configs (fun h => dictGetD rhd h 0)
        (fun h => dictGetD (p.merge_torrent_info path_hash scored_local).2.2 h []) ex
        (fun _ => True) remote
        ([], [], p.configs.foldl (planInitStep (p.merge_torrent_info path_hash scored_local).1
          (p.merge_torrent_info path_hash scored_local).2.1 disk_free) [])
        (by intro e he z hz; trivial)
      rcases hbdl y hy with hnil | hs
      · cases hnil
      · exact hs

/-- Witness for `zero_score_never_acquired`: a seederless candidate scores
`0`, and the acquisitions of a successful concrete plan all entered with
nonzero scores. -/
theorem zero_score_never_acquired_witness :
    ((({ free_weight := 1, cost_recovery_days := 7, removal_exemption_days := 15 }
        : Scorer).score_downloading (fun x => x)
          { mkInfo "z" 10 with seeders := 0 } true) = 0)
    ∧ ∀ y ∈ [(mkInfo "x" 15, "d")], ∃ s, ((y : TorrentInfo × String).1, s)
        ∈ [(mkInfo "x" 15, (1 : ℚ))] ∧ s ≠ 0 :=
  ⟨zero_score_never_acquired.1 _ _ _ _ (Or.inl (by norm_num [mkInfo])),
    zero_score_never_acquired.2 exPlanner (fun t => t.torrent.hash) (fun _ => 0) exHeldA
      [(mkInfo "x" 15, 1)] false
      [(mkLocal "a" 10 "d", "d"), (mkLocal "b" 10 "d", "d")] [(mkInfo "x" 15, "d")]
      [("a", []), ("b", []), ("c", [])]
      (by
        simp +decide [Planner.plan, Planner.merge_torrent_info, mergeStep,
          buildRemovableHashes, planInitStep, planStep, planPartStep, try_download,
          scanRemovable, chooseMin, classDuplicates, dictGet, dictSet, dictGetD,
          PlannerConfig.clamp, PlannerConfig.is_under_current_dir, exPlanner, exHeldA,
          mkLocal, mkInfo]
        all_goals norm_num)⟩

end Byre
